import Mathlib

/-!
Verification development for the readers-writers repository
(src/sync.py, src/simulation.py).

The Python classes are embedded shallowly:

* `RWLock` models `ReaderWriterLock` (src/sync.py, lines 11-231) as a
  labelled transition system.  Every thread is either a reader or a writer
  cycling through the program points of `reader_enter`/`reader_exit`
  (resp. `writer_enter`/`writer_exit`).  Semaphores are counters; the
  `condition` and `readers_count_mutex` critical sections are atomic steps,
  except where the source can block while holding `readers_count_mutex`
  (the first reader acquiring `writers_mutex`), which gets its own program
  point.  `condition.wait()` parks a thread until a `notify_all`.
* `Fair` models `FairReaderWriterLock` (src/sync.py, lines 234-288) as a
  monitor-style transition system; `notify()` wakes one chosen waiter,
  `notify_all()` wakes every waiter.
* `Sim` models the configuration and lifecycle methods of
  `SimulationManager` (src/simulation.py) as state transformers.

Wall-clock measurements (the 100 ms conflict threshold, `put` timeouts,
`join` grace periods) are not computable in the embedding; they enter as
explicit boolean/abstract inputs where the source branches on them.
-/

/-- Count of elements of a list satisfying a boolean predicate. -/
def cnt {α : Type} (p : α → Bool) : List α → Nat
  | [] => 0
  | a :: l => (if p a then 1 else 0) + cnt p l

theorem cnt_set {α : Type} (p : α → Bool) :
    ∀ (l : List α) (i : Nat) (a b : α), l[i]? = some a →
      cnt p (l.set i b) + (if p a then 1 else 0)
        = cnt p l + (if p b then 1 else 0)
  | [], i, _, _, h => by simp at h
  | x :: l, 0, a, b, h => by
      simp at h
      subst h
      simp [List.set, cnt]
      omega
  | x :: l, i + 1, a, b, h => by
      simp at h
      have ih := cnt_set p l i a b h
      simp [List.set, cnt]
      omega

theorem cnt_map {α : Type} (p : α → Bool) (f : α → α)
    (hf : ∀ a, p (f a) = p a) : ∀ l : List α, cnt p (l.map f) = cnt p l
  | [] => by simp [cnt]
  | a :: l => by simp [cnt, hf, cnt_map p f hf l]

theorem cnt_pos {α : Type} (p : α → Bool) :
    ∀ (l : List α) (i : Nat) (a : α), l[i]? = some a → p a = true →
      1 ≤ cnt p l
  | [], i, _, h, _ => by simp at h
  | x :: l, 0, a, h, hp => by
      simp at h
      subst h
      simp [cnt, hp]
  | x :: l, i + 1, a, h, hp => by
      simp at h
      have := cnt_pos p l i a h hp
      simp [cnt]
      omega

theorem cnt_zero {α : Type} (p : α → Bool) (l : List α) (i : Nat) (a : α)
    (hz : cnt p l = 0) (h : l[i]? = some a) : p a = false := by
  cases hp : p a
  · rfl
  · have := cnt_pos p l i a h hp
    omega

theorem cnt_replicate {α : Type} (p : α → Bool) (a : α) :
    ∀ n, cnt p (List.replicate n a) = if p a then n else 0
  | 0 => by simp [cnt]
  | n + 1 => by
      simp [List.replicate, cnt, cnt_replicate p a n]
      split <;> omega

theorem get?_set_self {α : Type} :
    ∀ (l : List α) (i : Nat) (a b : α), l[i]? = some a →
      (l.set i b)[i]? = some b
  | [], i, _, _, h => by simp at h
  | x :: l, 0, _, _, _ => by simp [List.set]
  | x :: l, i + 1, a, b, h => by
      simp at h
      simpa [List.set] using get?_set_self l i a b h

theorem get?_set_other {α : Type} :
    ∀ (l : List α) (i j : Nat) (b : α), i ≠ j →
      (l.set j b)[i]? = l[i]?
  | [], _, _, _, _ => by simp [List.set]
  | x :: l, 0, 0, b, h => absurd rfl h
  | x :: l, 0, j + 1, b, _ => by simp [List.set]
  | x :: l, i + 1, 0, b, _ => by simp [List.set]
  | x :: l, i + 1, j + 1, b, h => by
      simpa [List.set] using get?_set_other l i j b (by omega)

theorem get?_map {α : Type} (f : α → α) :
    ∀ (l : List α) (i : Nat), (l.map f)[i]? = (l[i]?).map f
  | [], i => by simp
  | x :: l, 0 => by simp
  | x :: l, i + 1 => by simp

namespace RWLock

/-- Program point of a reader thread through `ReaderWriterLock.reader_enter`
and `reader_exit` (src/sync.py, lines 66-142). -/
inductive RPc where
  | idle            -- outside the lock, about to call reader_enter
  | acqReadTry      -- about to run read_try.acquire()  (line 88 resp. 110)
  | decWaiting      -- wp: about to run waiting_readers -= 1  (lines 90-91)
  | checkWW         -- wp: first evaluation of the waiting_writers loop guard (line 95)
  | condWait        -- wp: parked in condition.wait()  (line 97)
  | reCheck         -- wp: woken, re-evaluating the loop guard (line 95)
  | lockedInc       -- about to run the readers_count_mutex block (lines 99-103 resp. 112-116)
  | acqWritersMutex -- first reader, holding readers_count_mutex, blocked on writers_mutex
  | relReadTry      -- about to run read_try.release()  (line 105 resp. 118)
  | incActive       -- about to run active_readers += 1  (lines 120-121)
  | thresholdCheck  -- wait-time threshold accounting (lines 123-125)
  | inRegion        -- holds shared permission, performing the read
  | exitLocked      -- reader_exit: readers_count_mutex block (lines 131-135)
  | exitStats       -- reader_exit: condition block (lines 137-142)
deriving DecidableEq, Repr

/-- Program point of a writer thread through `ReaderWriterLock.writer_enter`
and `writer_exit` (src/sync.py, lines 144-197). -/
inductive WPc where
  | idle           -- outside the lock, about to call writer_enter
  | acqReadTry     -- wp: about to run read_try.acquire()  (line 160)
  | acqWMwp        -- wp: about to run writers_mutex.acquire() (line 163); holds read_try
  | acqWMrp        -- rp: about to run writers_mutex.acquire() (line 177)
  | setActiveWp    -- wp: condition block, lines 165-167; holds read_try
  | setActiveRp    -- rp: condition block, lines 179-181
  | relReadTry     -- wp: about to run read_try.release()  (line 169)
  | thresholdCheck -- wait-time threshold accounting (lines 183-185)
  | inRegion       -- holds exclusive permission, performing the write
  | relWM          -- writer_exit: about to run writers_mutex.release()  (line 191)
  | exitStats      -- writer_exit: condition block (lines 193-197)
deriving DecidableEq, Repr

/-- Shared state of a `ReaderWriterLock` plus the program points of all
reader and writer threads.  Semaphores carry their counter value;
`rcMutexHeld` records that some first reader holds `readers_count_mutex`
across its blocking `writers_mutex.acquire()`. -/
structure Config where
  writer_priority : Bool
  read_try : Nat
  writers_mutex : Nat
  rcMutexHeld : Bool
  readers_count : Int
  active_readers : Int
  active_writers : Int
  waiting_readers : Int
  waiting_writers : Int
  reads_completed : Int
  writes_completed : Int
  conflicts : Int
  readers : List RPc
  writers : List WPc
deriving DecidableEq, Repr

/-- Effect of `condition.notify_all()` on one parked thread: a reader
suspended in `condition.wait()` becomes runnable and re-checks the guard. -/
def wake (pc : RPc) : RPc := if pc = .condWait then .reCheck else pc

/-- `condition.notify_all()` (lines 142 and 197): wakes every thread parked
in `condition.wait()`.  Only readers in the writer-priority path ever wait
on `condition`. -/
def notifyAll (l : List RPc) : List RPc := l.map wake

/-- One atomic step of reader thread `i` currently at program point `pc`.
`waited` tells whether the wall-clock wait measured at the threshold check
exceeded 0.1 s (line 124).  `none` means the thread is blocked. -/
def readerStep (c : Config) (i : Nat) (pc : RPc) (waited : Bool) : Option Config :=
  match pc with
  | .idle =>
      if c.writer_priority then
        some { c with waiting_readers := c.waiting_readers + 1,
                      readers := c.readers.set i .acqReadTry }
      else
        some { c with readers := c.readers.set i .acqReadTry }
  | .acqReadTry =>
      if c.read_try = 0 then none
      else some { c with read_try := c.read_try - 1,
                         readers := c.readers.set i
                           (if c.writer_priority then .decWaiting else .lockedInc) }
  | .decWaiting =>
      some { c with waiting_readers := c.waiting_readers - 1,
                    readers := c.readers.set i .checkWW }
  | .checkWW =>
      if 0 < c.waiting_writers then
        some { c with conflicts := c.conflicts + 1,
                      readers := c.readers.set i .condWait }
      else some { c with readers := c.readers.set i .lockedInc }
  | .condWait => none
  | .reCheck =>
      if 0 < c.waiting_writers then
        some { c with conflicts := c.conflicts + 1,
                      readers := c.readers.set i .condWait }
      else some { c with readers := c.readers.set i .lockedInc }
  | .lockedInc =>
      if c.rcMutexHeld then none
      else if c.readers_count + 1 = 1 then
        some { c with readers_count := c.readers_count + 1, rcMutexHeld := true,
                      readers := c.readers.set i .acqWritersMutex }
      else
        some { c with readers_count := c.readers_count + 1,
                      readers := c.readers.set i .relReadTry }
  | .acqWritersMutex =>
      if c.writers_mutex = 0 then none
      else some { c with writers_mutex := c.writers_mutex - 1, rcMutexHeld := false,
                         readers := c.readers.set i .relReadTry }
  | .relReadTry =>
      some { c with read_try := c.read_try + 1,
                    readers := c.readers.set i .incActive }
  | .incActive =>
      some { c with active_readers := c.active_readers + 1,
                    readers := c.readers.set i .thresholdCheck }
  | .thresholdCheck =>
      some { c with conflicts := c.conflicts + (if waited then 1 else 0),
                    readers := c.readers.set i .inRegion }
  | .inRegion => some { c with readers := c.readers.set i .exitLocked }
  | .exitLocked =>
      if c.rcMutexHeld then none
      else
        some { c with readers_count := c.readers_count - 1,
                      writers_mutex :=
                        if c.readers_count - 1 = 0 then c.writers_mutex + 1
                        else c.writers_mutex,
                      readers := c.readers.set i .exitStats }
  | .exitStats =>
      if c.readers_count = 0 then
        some { c with active_readers := c.active_readers - 1,
                      reads_completed := c.reads_completed + 1,
                      readers := (notifyAll c.readers).set i .idle }
      else
        some { c with active_readers := c.active_readers - 1,
                      reads_completed := c.reads_completed + 1,
                      readers := c.readers.set i .idle }

/-- One atomic step of writer thread `i` currently at program point `pc`. -/
def writerStep (c : Config) (i : Nat) (pc : WPc) (waited : Bool) : Option Config :=
  match pc with
  | .idle =>
      some { c with waiting_writers := c.waiting_writers + 1,
                    writers := c.writers.set i
                      (if c.writer_priority then .acqReadTry else .acqWMrp) }
  | .acqReadTry =>
      if c.read_try = 0 then none
      else some { c with read_try := c.read_try - 1,
                         writers := c.writers.set i .acqWMwp }
  | .acqWMwp =>
      if c.writers_mutex = 0 then none
      else some { c with writers_mutex := c.writers_mutex - 1,
                         writers := c.writers.set i .setActiveWp }
  | .acqWMrp =>
      if c.writers_mutex = 0 then none
      else some { c with writers_mutex := c.writers_mutex - 1,
                         writers := c.writers.set i .setActiveRp }
  | .setActiveWp =>
      some { c with waiting_writers := c.waiting_writers - 1,
                    active_writers := c.active_writers + 1,
                    writers := c.writers.set i .relReadTry }
  | .setActiveRp =>
      some { c with waiting_writers := c.waiting_writers - 1,
                    active_writers := c.active_writers + 1,
                    writers := c.writers.set i .thresholdCheck }
  | .relReadTry =>
      some { c with read_try := c.read_try + 1,
                    writers := c.writers.set i .thresholdCheck }
  | .thresholdCheck =>
      some { c with conflicts := c.conflicts + (if waited then 1 else 0),
                    writers := c.writers.set i .inRegion }
  | .inRegion => some { c with writers := c.writers.set i .relWM }
  | .relWM =>
      some { c with writers_mutex := c.writers_mutex + 1,
                    writers := c.writers.set i .exitStats }
  | .exitStats =>
      some { c with active_writers := c.active_writers - 1,
                    writes_completed := c.writes_completed + 1,
                    readers := notifyAll c.readers,
                    writers := c.writers.set i .idle }

/-- A scheduling choice: which thread runs its next atomic step, and whether
the wall clock charged it with a noticeable wait at its threshold check. -/
inductive RWLabel where
  | rstep (i : Nat) (waited : Bool)
  | wstep (i : Nat) (waited : Bool)
deriving DecidableEq, Repr

/-- Global small-step: run the chosen thread's next atomic step. -/
def step (c : Config) : RWLabel → Option Config
  | .rstep i waited => (c.readers[i]?).bind fun pc => readerStep c i pc waited
  | .wstep i waited => (c.writers[i]?).bind fun pc => writerStep c i pc waited

/-- Run a whole schedule of steps. -/
def exec (c : Config) : List RWLabel → Option Config
  | [] => some c
  | l :: ls => (step c l).bind fun c' => exec c' ls

/-- Initial state of `ReaderWriterLock.__init__` (lines 25-64) with `nR`
reader and `nW` writer threads, all outside the lock. -/
def initRW (nR nW : Nat) (wp : Bool) : Config :=
  { writer_priority := wp
    read_try := 1
    writers_mutex := 1
    rcMutexHeld := false
    readers_count := 0
    active_readers := 0
    active_writers := 0
    waiting_readers := 0
    waiting_writers := 0
    reads_completed := 0
    writes_completed := 0
    conflicts := 0
    readers := List.replicate nR .idle
    writers := List.replicate nW .idle }

/-- The dictionary returned by `get_stats` (lines 199-210). -/
structure Stats where
  active_readers : Int
  active_writers : Int
  waiting_readers : Int
  waiting_writers : Int
  reads_completed : Int
  writes_completed : Int
  conflicts : Int
deriving DecidableEq, Repr

/-- `ReaderWriterLock.get_stats` (lines 199-210): an atomic snapshot of the
statistics counters, taken under `condition`. -/
def getStats (c : Config) : Stats :=
  { active_readers := c.active_readers
    active_writers := c.active_writers
    waiting_readers := c.waiting_readers
    waiting_writers := c.waiting_writers
    reads_completed := c.reads_completed
    writes_completed := c.writes_completed
    conflicts := c.conflicts }

/-- `ReaderWriterLock.try_detect_deadlock` (lines 218-231). -/
def tryDetectDeadlock (c : Config) : Option String :=
  if 0 < c.active_writers ∧ 0 < c.active_readers then
    some ("Deadlock detected: Both readers and writers active")
  else if 5 < c.waiting_writers ∧ 5 < c.waiting_readers then
    some ("Potential starvation: Many threads waiting")
  else none

/-- C7: `try_detect_deadlock` returns a diagnostic string exactly when both
activity counters are simultaneously positive or both waiting counters
simultaneously exceed 5; in every other state it returns `None`. -/
theorem c7_deadlock_detector_iff (c : Config) :
    (tryDetectDeadlock c).isSome ↔
      ((0 < c.active_readers ∧ 0 < c.active_writers) ∨
       (5 < c.waiting_readers ∧ 5 < c.waiting_writers)) := by
  unfold tryDetectDeadlock
  split_ifs with h1 h2 <;> simp <;> omega

/-- Schedule exhibiting the statistics race: a single writer completes its
critical section and runs `writers_mutex.release()` (line 191), then a
reader performs all of `reader_enter` before the writer reaches the
`active_writers -= 1` block (lines 193-194). -/
def c1Schedule : List RWLabel :=
  [ .wstep 0 false, .wstep 0 false, .wstep 0 false, .wstep 0 false,
    .wstep 0 false, .wstep 0 false,
    .rstep 0 false, .rstep 0 false, .rstep 0 false, .rstep 0 false,
    .rstep 0 false, .rstep 0 false ]

/-- C1: refuted by execution.  In reader-priority mode with one reader and
one writer, the interleaving `c1Schedule` reaches a state whose `get_stats`
snapshot has `active_writers = 1` and `active_readers = 1` simultaneously:
`writer_exit` releases `writers_mutex` before decrementing `active_writers`,
so a reader can become active inside the window. -/
theorem c1_counters_race :
    (exec (initRW 1 1 false) c1Schedule).map
        (fun c => ((getStats c).active_writers, (getStats c).active_readers))
      = some (1, 1) := by decide


/-- Induction principle over schedules: a property preserved by every step
holds in every state reached by `exec`. -/
theorem exec_inv {P : Config → Prop}
    (hstep : ∀ c l c', P c → step c l = some c' → P c') :
    ∀ (ls : List RWLabel) (c c' : Config), P c → exec c ls = some c' → P c' := by
  intro ls
  induction ls with
  | nil =>
      intro c c' hP h
      simp [exec] at h
      exact h ▸ hP
  | cons l ls ih =>
      intro c c' hP h
      simp only [exec] at h
      cases hs : step c l with
      | none => rw [hs] at h; simp at h
      | some c1 =>
          rw [hs] at h
          simp only [Option.some_bind] at h
          exact ih c1 c' (hstep c l c1 hP hs) h

/-- All states visited while running a schedule (including the start state
and, when the whole schedule runs, the final state). -/
def statesAlong (c : Config) : List RWLabel → List Config
  | [] => [c]
  | l :: ls => c ::
      (match step c l with
       | none => []
       | some c' => statesAlong c' ls)

/-- Formalization of C2 as stated: in writer-priority mode, from any
reachable state with a waiting writer (`waiting_writers > 0`), along any
continuation in which no writer ever becomes active (so in particular the
waiting writer never completes), no additional reader transitions to
active, i.e. `active_readers` cannot exceed its starting value. -/
def writerExclusionClaim : Prop :=
  ∀ (nR nW : Nat) (ls pre : List RWLabel) (s t : Config),
    exec (initRW nR nW true) ls = some s →
    0 < s.waiting_writers →
    exec s pre = some t →
    (∀ u ∈ statesAlong s pre, u.active_writers = 0) →
    t.active_readers ≤ s.active_readers

/-- Schedule reaching the C2 race window: the reader passes the
`waiting_writers > 0` check (line 95) while no writer is waiting, then the
writer registers itself as waiting (line 157). -/
def c2Reach : List RWLabel :=
  [.rstep 0 false, .rstep 0 false, .rstep 0 false, .rstep 0 false, .wstep 0 false]

/-- Continuation of the C2 race: the reader finishes `reader_enter` and
increments `active_readers` while the writer is still waiting. -/
def c2Cont : List RWLabel :=
  [.rstep 0 false, .rstep 0 false, .rstep 0 false, .rstep 0 false]

/-- The state reached by `c2Reach`: one waiting writer, and the reader past
the loop guard, about to enter the `readers_count_mutex` block. -/
def c2Mid : Config :=
  { writer_priority := true, read_try := 0, writers_mutex := 1,
    rcMutexHeld := false, readers_count := 0, active_readers := 0,
    active_writers := 0, waiting_readers := 0, waiting_writers := 1,
    reads_completed := 0, writes_completed := 0, conflicts := 0,
    readers := [.lockedInc], writers := [.acqReadTry] }

/-- The state reached from `c2Mid` by `c2Cont`: the reader is active even
though the writer registered as waiting before the reader became active. -/
def c2End : Config :=
  { writer_priority := true, read_try := 1, writers_mutex := 0,
    rcMutexHeld := false, readers_count := 1, active_readers := 1,
    active_writers := 0, waiting_readers := 0, waiting_writers := 1,
    reads_completed := 0, writes_completed := 0, conflicts := 0,
    readers := [.thresholdCheck], writers := [.acqReadTry] }

/-- C2 is refuted as stated: a reader that passed the waiting-writer check
before the writer incremented `waiting_writers` still becomes active while
the writer waits, so "once a writer is waiting, no additional reader
transitions to active until that writer completes" fails on the code. -/
theorem c2_counterexample : ¬ writerExclusionClaim := by
  intro h
  have := h 1 1 c2Reach c2Cont c2Mid c2End (by decide) (by decide)
    (by decide) (by decide)
  exact absurd this (by decide)

/-- Reader program points at which the thread holds the `read_try` admit
gate (between `read_try.acquire()` and `read_try.release()`). -/
def rGate : RPc → Bool
  | .decWaiting | .checkWW | .condWait | .reCheck
  | .lockedInc | .acqWritersMutex | .relReadTry => true
  | _ => false

/-- Writer program points at which the thread holds the `read_try` admit
gate (writer-priority path, lines 160-169). -/
def wGate : WPc → Bool
  | .acqWMwp | .setActiveWp | .relReadTry => true
  | _ => false

/-- Semaphore invariant for the binary `read_try` gate: its value plus the
number of holders is exactly one. -/
def GateInv (c : Config) : Prop :=
  c.read_try + cnt rGate c.readers + cnt wGate c.writers = 1

theorem rGate_wake : ∀ pc, rGate (wake pc) = rGate pc := by
  intro pc
  cases pc <;> rfl

theorem cnt_rGate_notifyAll (l : List RPc) :
    cnt rGate (notifyAll l) = cnt rGate l :=
  cnt_map rGate wake rGate_wake l


/-- `GateInv` holds initially: the gate semaphore is 1 and nobody holds it. -/
theorem gateInv_init (nR nW : Nat) (wp : Bool) : GateInv (initRW nR nW wp) := by
  unfold GateInv initRW
  simp [cnt_replicate, rGate, wGate]

/-- Every step of the transition system preserves the `read_try` semaphore
invariant. -/
theorem gate_step : ∀ (c : Config) (l : RWLabel) (c' : Config),
    GateInv c → step c l = some c' → GateInv c' := by
  intro c l c' hInv hstep
  unfold GateInv at hInv ⊢
  cases l with
  | rstep i w =>
      simp only [step] at hstep
      cases hget : c.readers[i]? with
      | none => rw [hget] at hstep; simp at hstep
      | some pc =>
          rw [hget] at hstep
          simp only [Option.some_bind] at hstep
          cases pc with
          | idle =>
              have hc := cnt_set rGate c.readers i _ RPc.acqReadTry hget
              simp only [readerStep] at hstep
              split at hstep <;> rw [Option.some.injEq] at hstep <;> subst hstep <;>
                simp [rGate] at hc ⊢ <;> omega
          | acqReadTry =>
              simp only [readerStep] at hstep
              split at hstep
              · simp at hstep
              · rename_i hrt
                rw [Option.some.injEq] at hstep
                subst hstep
                by_cases hwp : c.writer_priority
                · have hc := cnt_set rGate c.readers i _ RPc.decWaiting hget
                  simp [hwp, rGate] at hc ⊢
                  omega
                · have hc := cnt_set rGate c.readers i _ RPc.lockedInc hget
                  simp [hwp, rGate] at hc ⊢
                  omega
          | decWaiting =>
              have hc := cnt_set rGate c.readers i _ RPc.checkWW hget
              simp only [readerStep] at hstep
              rw [Option.some.injEq] at hstep
              subst hstep
              simp [rGate] at hc ⊢
              omega
          | checkWW =>
              simp only [readerStep] at hstep
              split at hstep <;> rw [Option.some.injEq] at hstep <;> subst hstep
              · have hc := cnt_set rGate c.readers i _ RPc.condWait hget
                simp [rGate] at hc ⊢
                omega
              · have hc := cnt_set rGate c.readers i _ RPc.lockedInc hget
                simp [rGate] at hc ⊢
                omega
          | condWait => simp [readerStep] at hstep
          | reCheck =>
              simp only [readerStep] at hstep
              split at hstep <;> rw [Option.some.injEq] at hstep <;> subst hstep
              · have hc := cnt_set rGate c.readers i _ RPc.condWait hget
                simp [rGate] at hc ⊢
                omega
              · have hc := cnt_set rGate c.readers i _ RPc.lockedInc hget
                simp [rGate] at hc ⊢
                omega
          | lockedInc =>
              simp only [readerStep] at hstep
              split at hstep
              · simp at hstep
              · split at hstep <;> rw [Option.some.injEq] at hstep <;> subst hstep
                · have hc := cnt_set rGate c.readers i _ RPc.acqWritersMutex hget
                  simp [rGate] at hc ⊢
                  omega
                · have hc := cnt_set rGate c.readers i _ RPc.relReadTry hget
                  simp [rGate] at hc ⊢
                  omega
          | acqWritersMutex =>
              simp only [readerStep] at hstep
              split at hstep
              · simp at hstep
              · rw [Option.some.injEq] at hstep
                subst hstep
                have hc := cnt_set rGate c.readers i _ RPc.relReadTry hget
                simp [rGate] at hc ⊢
                omega
          | relReadTry =>
              have hc := cnt_set rGate c.readers i _ RPc.incActive hget
              simp only [readerStep] at hstep
              rw [Option.some.injEq] at hstep
              subst hstep
              simp [rGate] at hc ⊢
              omega
          | incActive =>
              have hc := cnt_set rGate c.readers i _ RPc.thresholdCheck hget
              simp only [readerStep] at hstep
              rw [Option.some.injEq] at hstep
              subst hstep
              simp [rGate] at hc ⊢
              omega
          | thresholdCheck =>
              have hc := cnt_set rGate c.readers i _ RPc.inRegion hget
              simp only [readerStep] at hstep
              rw [Option.some.injEq] at hstep
              subst hstep
              simp [rGate] at hc ⊢
              omega
          | inRegion =>
              have hc := cnt_set rGate c.readers i _ RPc.exitLocked hget
              simp only [readerStep] at hstep
              rw [Option.some.injEq] at hstep
              subst hstep
              simp [rGate] at hc ⊢
              omega
          | exitLocked =>
              simp only [readerStep] at hstep
              split at hstep
              · simp at hstep
              · rw [Option.some.injEq] at hstep
                subst hstep
                have hc := cnt_set rGate c.readers i _ RPc.exitStats hget
                simp [rGate] at hc ⊢
                omega
          | exitStats =>
              simp only [readerStep] at hstep
              split at hstep <;> rw [Option.some.injEq] at hstep <;> subst hstep
              · have hget2 : (notifyAll c.readers)[i]? = some (wake RPc.exitStats) := by
                  rw [notifyAll, get?_map, hget]
                  rfl
                have hc := cnt_set rGate (notifyAll c.readers) i _ RPc.idle hget2
                rw [cnt_rGate_notifyAll] at hc
                simp [rGate, wake] at hc ⊢
                omega
              · have hc := cnt_set rGate c.readers i _ RPc.idle hget
                simp [rGate] at hc ⊢
                omega
  | wstep i w =>
      simp only [step] at hstep
      cases hget : c.writers[i]? with
      | none => rw [hget] at hstep; simp at hstep
      | some pc =>
          rw [hget] at hstep
          simp only [Option.some_bind] at hstep
          cases pc with
          | idle =>
              simp only [writerStep] at hstep
              rw [Option.some.injEq] at hstep
              subst hstep
              by_cases hwp : c.writer_priority
              · have hc := cnt_set wGate c.writers i _ WPc.acqReadTry hget
                simp [hwp, wGate] at hc ⊢
                omega
              · have hc := cnt_set wGate c.writers i _ WPc.acqWMrp hget
                simp [hwp, wGate] at hc ⊢
                omega
          | acqReadTry =>
              simp only [writerStep] at hstep
              split at hstep
              · simp at hstep
              · rename_i hrt
                rw [Option.some.injEq] at hstep
                subst hstep
                have hc := cnt_set wGate c.writers i _ WPc.acqWMwp hget
                simp [wGate] at hc ⊢
                omega
          | acqWMwp =>
              simp only [writerStep] at hstep
              split at hstep
              · simp at hstep
              · rw [Option.some.injEq] at hstep
                subst hstep
                have hc := cnt_set wGate c.writers i _ WPc.setActiveWp hget
                simp [wGate] at hc ⊢
                omega
          | acqWMrp =>
              simp only [writerStep] at hstep
              split at hstep
              · simp at hstep
              · rw [Option.some.injEq] at hstep
                subst hstep
                have hc := cnt_set wGate c.writers i _ WPc.setActiveRp hget
                simp [wGate] at hc ⊢
                omega
          | setActiveWp =>
              simp only [writerStep] at hstep
              rw [Option.some.injEq] at hstep
              subst hstep
              have hc := cnt_set wGate c.writers i _ WPc.relReadTry hget
              simp [wGate] at hc ⊢
              omega
          | setActiveRp =>
              simp only [writerStep] at hstep
              rw [Option.some.injEq] at hstep
              subst hstep
              have hc := cnt_set wGate c.writers i _ WPc.thresholdCheck hget
              simp [wGate] at hc ⊢
              omega
          | relReadTry =>
              simp only [writerStep] at hstep
              rw [Option.some.injEq] at hstep
              subst hstep
              have hc := cnt_set wGate c.writers i _ WPc.thresholdCheck hget
              simp [wGate] at hc ⊢
              omega
          | thresholdCheck =>
              simp only [writerStep] at hstep
              rw [Option.some.injEq] at hstep
              subst hstep
              have hc := cnt_set wGate c.writers i _ WPc.inRegion hget
              simp [wGate] at hc ⊢
              omega
          | inRegion =>
              simp only [writerStep] at hstep
              rw [Option.some.injEq] at hstep
              subst hstep
              have hc := cnt_set wGate c.writers i _ WPc.relWM hget
              simp [wGate] at hc ⊢
              omega
          | relWM =>
              simp only [writerStep] at hstep
              rw [Option.some.injEq] at hstep
              subst hstep
              have hc := cnt_set wGate c.writers i _ WPc.exitStats hget
              simp [wGate] at hc ⊢
              omega
          | exitStats =>
              simp only [writerStep] at hstep
              rw [Option.some.injEq] at hstep
              subst hstep
              have hc := cnt_set wGate c.writers i _ WPc.idle hget
              simp [wGate] at hc ⊢
              rw [cnt_rGate_notifyAll]
              omega

/-- C2 amended: the exclusion the writer-priority code actually provides.
In any reachable writer-priority state, while a writer holds the `read_try`
admit gate (lines 160-169), no reader holds the gate, so no additional
reader can pass the gate or run the `readers_count` increment block until
the writer releases it after becoming active.  (A reader that passed the
waiting-writer check before the writer registered may still become active,
as `c2_counterexample` shows.) -/
theorem c2_gate_exclusion :
    ∀ (nR nW : Nat) (ls : List RWLabel) (c : Config),
      exec (initRW nR nW true) ls = some c →
      ∀ (j : Nat) (pcw : WPc), c.writers[j]? = some pcw → wGate pcw = true →
      ∀ (i : Nat) (pcr : RPc), c.readers[i]? = some pcr → rGate pcr = false := by
  intro nR nW ls c hexec j pcw hj hw i pcr hi
  have hInv : GateInv c := exec_inv gate_step ls _ c (gateInv_init nR nW true) hexec
  have h1 := cnt_pos wGate c.writers j pcw hj hw
  have h0 : cnt rGate c.readers = 0 := by
    unfold GateInv at hInv
    omega
  exact cnt_zero rGate c.readers i pcr h0 hi

/-- The state reached from `initRW 1 1 true` after the writer registers as
waiting and acquires the admit gate. -/
def c2WitnessState : Config :=
  { writer_priority := true, read_try := 0, writers_mutex := 1,
    rcMutexHeld := false, readers_count := 0, active_readers := 0,
    active_writers := 0, waiting_readers := 0, waiting_writers := 1,
    reads_completed := 0, writes_completed := 0, conflicts := 0,
    readers := [.idle], writers := [.acqWMwp] }

/-- Witness for `c2_gate_exclusion`: with one reader and one writer, after
the writer acquires the admit gate the (idle) reader indeed does not hold
it. -/
theorem c2_gate_exclusion_witness : rGate RPc.idle = false :=
  c2_gate_exclusion 1 1 [.wstep 0 false, .wstep 0 false] c2WitnessState
    (by decide) 0 .acqWMwp (by decide) (by decide) 0 .idle (by decide)


/-- Reader program points that only the writer-priority branch of
`reader_enter` (lines 82-105) can reach. -/
def badR : RPc → Bool
  | .decWaiting | .checkWW | .condWait | .reCheck => true
  | _ => false

theorem badR_wake : ∀ pc, badR (wake pc) = badR pc := by
  intro pc
  cases pc <;> rfl

theorem cnt_badR_notifyAll (l : List RPc) :
    cnt badR (notifyAll l) = cnt badR l :=
  cnt_map badR wake badR_wake l

theorem cnt_badR_still_zero (l : List RPc) (i : Nat) (pcOld pcNew : RPc)
    (hget : l[i]? = some pcOld) (hz : cnt badR l = 0)
    (hnew : badR pcNew = false) : cnt badR (l.set i pcNew) = 0 := by
  have hc := cnt_set badR l i pcOld pcNew hget
  rw [hnew] at hc
  simp at hc
  omega

/-- Invariant of a lock that has stayed in reader-priority mode: no reader
ever visits the writer-priority-only program points, and the
`waiting_readers` counter stays untouched at 0. -/
def RPInv (c : Config) : Prop :=
  c.writer_priority = false ∧ c.waiting_readers = 0 ∧ cnt badR c.readers = 0

theorem rpInv_init (nR nW : Nat) : RPInv (initRW nR nW false) := by
  unfold RPInv initRW
  simp [cnt_replicate, badR]

/-- Frame facts about any reader step: it never touches the writer thread
list nor the priority flag. -/
theorem readerStep_frame : ∀ (c : Config) (i : Nat) (pc : RPc) (w : Bool)
    (c' : Config), readerStep c i pc w = some c' →
    c'.writers = c.writers ∧ c'.writer_priority = c.writer_priority := by
  intro c i pc w c' h
  cases pc <;> simp only [readerStep] at h <;> (try split at h) <;>
    (try split at h) <;>
    first
    | (rw [Option.some.injEq] at h; subst h; exact ⟨rfl, rfl⟩)
    | simp at h

/-- Frame facts about any writer step: the reader list is either untouched
or hit by a `notify_all`, the `waiting_readers` counter and the priority
flag are untouched, and the writer list changes only at the stepping
thread's own slot. -/
theorem writerStep_frame : ∀ (c : Config) (i : Nat) (pc : WPc) (w : Bool)
    (c' : Config), writerStep c i pc w = some c' →
    (c'.readers = c.readers ∨ c'.readers = notifyAll c.readers) ∧
    c'.waiting_readers = c.waiting_readers ∧
    c'.writer_priority = c.writer_priority ∧
    ∃ npc, c'.writers = c.writers.set i npc := by
  intro c i pc w c' h
  cases pc <;> simp only [writerStep] at h <;> (try split at h) <;>
    first
    | (rw [Option.some.injEq] at h; subst h;
       exact ⟨Or.inl rfl, rfl, rfl, _, rfl⟩)
    | (rw [Option.some.injEq] at h; subst h;
       exact ⟨Or.inr rfl, rfl, rfl, _, rfl⟩)
    | simp at h

/-- Every step preserves `RPInv`. -/
theorem rp_step : ∀ (c : Config) (l : RWLabel) (c' : Config),
    RPInv c → step c l = some c' → RPInv c' := by
  intro c l c' hInv hstep
  obtain ⟨hwp, hwr, hbad⟩ := hInv
  cases l with
  | rstep i w =>
      simp only [step] at hstep
      cases hget : c.readers[i]? with
      | none => rw [hget] at hstep; simp at hstep
      | some pc =>
          rw [hget] at hstep
          simp only [Option.some_bind] at hstep
          cases pc with
          | idle =>
              simp only [readerStep, hwp] at hstep
              rw [if_neg (by simp)] at hstep
              rw [Option.some.injEq] at hstep
              subst hstep
              exact ⟨by simp [hwp], by simp [hwr],
                cnt_badR_still_zero _ _ _ _ hget hbad rfl⟩
          | acqReadTry =>
              simp only [readerStep, hwp] at hstep
              split at hstep
              · simp at hstep
              · rw [Option.some.injEq] at hstep
                subst hstep
                exact ⟨by simp [hwp], by simp [hwr],
                  cnt_badR_still_zero _ _ _ _ hget hbad rfl⟩
          | decWaiting =>
              have := cnt_pos badR c.readers i _ hget (by simp [badR])
              omega
          | checkWW =>
              have := cnt_pos badR c.readers i _ hget (by simp [badR])
              omega
          | condWait => simp [readerStep] at hstep
          | reCheck =>
              have := cnt_pos badR c.readers i _ hget (by simp [badR])
              omega
          | lockedInc =>
              simp only [readerStep] at hstep
              split at hstep
              · simp at hstep
              · split at hstep <;> rw [Option.some.injEq] at hstep <;>
                  subst hstep <;>
                  exact ⟨by simp [hwp], by simp [hwr],
                    cnt_badR_still_zero _ _ _ _ hget hbad rfl⟩
          | acqWritersMutex =>
              simp only [readerStep] at hstep
              split at hstep
              · simp at hstep
              · rw [Option.some.injEq] at hstep
                subst hstep
                exact ⟨by simp [hwp], by simp [hwr],
                  cnt_badR_still_zero _ _ _ _ hget hbad rfl⟩
          | relReadTry =>
              simp only [readerStep] at hstep
              rw [Option.some.injEq] at hstep
              subst hstep
              exact ⟨by simp [hwp], by simp [hwr],
                cnt_badR_still_zero _ _ _ _ hget hbad rfl⟩
          | incActive =>
              simp only [readerStep] at hstep
              rw [Option.some.injEq] at hstep
              subst hstep
              exact ⟨by simp [hwp], by simp [hwr],
                cnt_badR_still_zero _ _ _ _ hget hbad rfl⟩
          | thresholdCheck =>
              simp only [readerStep] at hstep
              rw [Option.some.injEq] at hstep
              subst hstep
              exact ⟨by simp [hwp], by simp [hwr],
                cnt_badR_still_zero _ _ _ _ hget hbad rfl⟩
          | inRegion =>
              simp only [readerStep] at hstep
              rw [Option.some.injEq] at hstep
              subst hstep
              exact ⟨by simp [hwp], by simp [hwr],
                cnt_badR_still_zero _ _ _ _ hget hbad rfl⟩
          | exitLocked =>
              simp only [readerStep] at hstep
              split at hstep
              · simp at hstep
              · rw [Option.some.injEq] at hstep
                subst hstep
                exact ⟨by simp [hwp], by simp [hwr],
                  cnt_badR_still_zero _ _ _ _ hget hbad rfl⟩
          | exitStats =>
              simp only [readerStep] at hstep
              split at hstep <;> rw [Option.some.injEq] at hstep <;> subst hstep
              · have hz2 : cnt badR (notifyAll c.readers) = 0 := by
                  rw [cnt_badR_notifyAll]
                  exact hbad
                have hget2 : (notifyAll c.readers)[i]? = some (wake RPc.exitStats) := by
                  rw [notifyAll, get?_map, hget]
                  rfl
                exact ⟨by simp [hwp], by simp [hwr],
                  cnt_badR_still_zero _ _ _ _ hget2 hz2 rfl⟩
              · exact ⟨by simp [hwp], by simp [hwr],
                  cnt_badR_still_zero _ _ _ _ hget hbad rfl⟩
  | wstep i w =>
      simp only [step] at hstep
      cases hget : c.writers[i]? with
      | none => rw [hget] at hstep; simp at hstep
      | some pc =>
          rw [hget] at hstep
          simp only [Option.some_bind] at hstep
          have hf := writerStep_frame c i pc w c' hstep
          refine ⟨hf.2.2.1.trans hwp, hf.2.1.trans hwr, ?_⟩
          rcases hf.1 with hr | hr <;> rw [hr]
          · exact hbad
          · rw [cnt_badR_notifyAll]
            exact hbad

/-- C10: a `ReaderWriterLock` kept in reader-priority mode never touches
`waiting_readers`: it is 0 in every reachable state, every `get_stats`
snapshot reports 0, no step changes it, and `try_detect_deadlock` can never
return the starvation warning (whose guard needs `waiting_readers > 5`). -/
theorem c10_reader_priority_no_waiting_readers :
    ∀ (nR nW : Nat) (ls : List RWLabel) (c : Config),
      exec (initRW nR nW false) ls = some c →
      c.waiting_readers = 0 ∧
      (getStats c).waiting_readers = 0 ∧
      (∀ (l : RWLabel) (c' : Config), step c l = some c' →
        c'.waiting_readers = c.waiting_readers) ∧
      tryDetectDeadlock c ≠ some ("Potential starvation: Many threads waiting") := by
  intro nR nW ls c hexec
  have hInv : RPInv c := exec_inv rp_step ls _ c (rpInv_init nR nW) hexec
  obtain ⟨hwp, hwr, hbad⟩ := hInv
  refine ⟨hwr, hwr, ?_, ?_⟩
  · intro l c' hs
    have := rp_step c l c' ⟨hwp, hwr, hbad⟩ hs
    rw [this.2.1, hwr]
  · intro heq
    unfold tryDetectDeadlock at heq
    split_ifs at heq with h1 h2
    · exact absurd heq (by decide)
    · omega

/-- The state reached from `initRW 1 1 false` after the reader calls
`reader_enter` (one step). -/
def c10WitnessState : Config :=
  { writer_priority := false, read_try := 1, writers_mutex := 1,
    rcMutexHeld := false, readers_count := 0, active_readers := 0,
    active_writers := 0, waiting_readers := 0, waiting_writers := 0,
    reads_completed := 0, writes_completed := 0, conflicts := 0,
    readers := [.acqReadTry], writers := [.idle] }

/-- Witness for `c10_reader_priority_no_waiting_readers` at a concrete
reachable reader-priority state. -/
theorem c10_reader_priority_witness : c10WitnessState.waiting_readers = 0 :=
  (c10_reader_priority_no_waiting_readers 1 1 [.rstep 0 false]
    c10WitnessState (by decide)).1


theorem get?_replicate {α : Type} (a : α) :
    ∀ (n i : Nat), (List.replicate n a)[i]? = if i < n then some a else none
  | 0, i => by simp
  | n + 1, 0 => by simp [List.replicate]
  | n + 1, i + 1 => by
      simp only [List.replicate, List.getElem?_cons_succ]
      rw [get?_replicate a n i]
      split <;> split <;> first | rfl | omega

/-- Selector for steps taken by reader thread `i`. -/
def isR (i : Nat) : RWLabel → Bool
  | .rstep j _ => j == i
  | _ => false

/-- Selector for steps taken by writer thread `i`. -/
def isW (i : Nat) : RWLabel → Bool
  | .wstep j _ => j == i
  | _ => false

/-- A step starts a new `reader_enter`/`writer_enter` call when the stepping
thread is currently outside the lock. -/
def startsCall (c : Config) : RWLabel → Bool
  | .rstep j _ => c.readers[j]? == some .idle
  | .wstep j _ => c.writers[j]? == some .idle

/-- Number of steps, among those selected by `sel`, that change the
`conflicts` counter while running the schedule. -/
def conflictSteps (sel : RWLabel → Bool) : Config → List RWLabel → Nat
  | _, [] => 0
  | c, l :: ls =>
      (step c l).elim 0 fun c' =>
        (if sel l && (c'.conflicts != c.conflicts) then 1 else 0) +
          conflictSteps sel c' ls

/-- Number of selected steps that start a new enter call while running the
schedule. -/
def callsStarted (sel : RWLabel → Bool) : Config → List RWLabel → Nat
  | _, [] => 0
  | c, l :: ls =>
      (step c l).elim 0 fun c' =>
        (if sel l && startsCall c l then 1 else 0) + callsStarted sel c' ls

/-- Formalization of C4 as stated: each single `reader_enter`/`writer_enter`
call changes `conflicts` exactly once when the measured wait exceeded the
threshold and not at all otherwise — in particular a single call never
accounts for more than one `conflicts` increment, so along any schedule a
thread's conflict-changing steps are bounded by the calls it started. -/
def conflictPerCallClaim : Prop :=
  ∀ (wp : Bool) (nR nW : Nat) (ls : List RWLabel) (i : Nat),
    conflictSteps (isR i) (initRW nR nW wp) ls
      ≤ callsStarted (isR i) (initRW nR nW wp) ls ∧
    conflictSteps (isW i) (initRW nR nW wp) ls
      ≤ callsStarted (isW i) (initRW nR nW wp) ls

/-- Schedule refuting C4: in writer-priority mode a writer enters and
leaves; meanwhile the reader takes the admit gate, then a second writer
registers as waiting, so the reader's guard check (line 95) bumps
`conflicts`, and the first writer's exit `notify_all` wakes the reader into
another failing guard check (another bump) — two `conflicts` increments
attributable to one single `reader_enter` call. -/
def c4Schedule : List RWLabel :=
  [ .wstep 0 false, .wstep 0 false, .wstep 0 false, .wstep 0 false,
    .wstep 0 false, .wstep 0 false,
    .rstep 0 false, .rstep 0 false, .rstep 0 false,
    .wstep 1 false,
    .rstep 0 false,
    .wstep 0 false, .wstep 0 false, .wstep 0 false,
    .rstep 0 false ]

/-- C4 is refuted as stated: on `c4Schedule` the single `reader_enter` call
of reader 0 makes `conflicts` grow by 2 (once per wake-up of the
condition-wait loop), not by at most one. -/
theorem c4_counterexample : ¬ conflictPerCallClaim := by
  intro h
  have := (h true 1 2 c4Schedule 0).1
  exact absurd this (by decide)

/-- One "pending conflict allowance" per in-flight enter call: reader
program points between the start of `reader_enter` and its threshold check
carry the single allowed `conflicts` increment of that call. -/
def tokR : RPc → Nat
  | .acqReadTry | .lockedInc | .acqWritersMutex
  | .relReadTry | .incActive | .thresholdCheck => 1
  | _ => 0

/-- Writer analogue of `tokR`. -/
def tokW : WPc → Nat
  | .acqReadTry | .acqWMwp | .acqWMrp | .setActiveWp | .setActiveRp
  | .relReadTry | .thresholdCheck => 1
  | _ => 0

/-- Per-step accounting for a writer's own step: the step changes
`conflicts` at most when the call's allowance is spent, and a fresh
allowance appears only when a new call starts. -/
theorem writerStep_tok : ∀ (c : Config) (j : Nat) (pc : WPc) (w : Bool)
    (c' : Config), c.writers[j]? = some pc → writerStep c j pc w = some c' →
    (if c'.conflicts != c.conflicts then 1 else 0)
      + tokW ((c'.writers[j]?).getD .inRegion)
      ≤ (if pc == WPc.idle then 1 else 0) + tokW pc := by
  intro c j pc w c' hg h
  cases pc with
  | idle =>
      simp only [writerStep] at h
      rw [Option.some.injEq] at h
      subst h
      rw [get?_set_self _ _ _ _ hg]
      simp only [Option.getD_some]
      have ht : tokW (if c.writer_priority = true then WPc.acqReadTry
          else WPc.acqWMrp) = 1 := by
        split <;> rfl
      rw [ht]
      simp [tokW]
  | acqReadTry =>
      simp only [writerStep] at h
      split at h
      · simp at h
      · rw [Option.some.injEq] at h
        subst h
        rw [get?_set_self _ _ _ _ hg]
        simp [tokW]
  | acqWMwp =>
      simp only [writerStep] at h
      split at h
      · simp at h
      · rw [Option.some.injEq] at h
        subst h
        rw [get?_set_self _ _ _ _ hg]
        simp [tokW]
  | acqWMrp =>
      simp only [writerStep] at h
      split at h
      · simp at h
      · rw [Option.some.injEq] at h
        subst h
        rw [get?_set_self _ _ _ _ hg]
        simp [tokW]
  | setActiveWp =>
      simp only [writerStep] at h
      rw [Option.some.injEq] at h
      subst h
      rw [get?_set_self _ _ _ _ hg]
      simp [tokW]
  | setActiveRp =>
      simp only [writerStep] at h
      rw [Option.some.injEq] at h
      subst h
      rw [get?_set_self _ _ _ _ hg]
      simp [tokW]
  | relReadTry =>
      simp only [writerStep] at h
      rw [Option.some.injEq] at h
      subst h
      rw [get?_set_self _ _ _ _ hg]
      simp [tokW]
  | thresholdCheck =>
      simp only [writerStep] at h
      rw [Option.some.injEq] at h
      subst h
      rw [get?_set_self _ _ _ _ hg]
      simp only [Option.getD_some, tokW]
      split <;> simp
  | inRegion =>
      simp only [writerStep] at h
      rw [Option.some.injEq] at h
      subst h
      rw [get?_set_self _ _ _ _ hg]
      simp [tokW]
  | relWM =>
      simp only [writerStep] at h
      rw [Option.some.injEq] at h
      subst h
      rw [get?_set_self _ _ _ _ hg]
      simp [tokW]
  | exitStats =>
      simp only [writerStep] at h
      rw [Option.some.injEq] at h
      subst h
      rw [get?_set_self _ _ _ _ hg]
      simp [tokW]


/-- Per-step accounting for a reader's own step in a reader-priority-mode
state (compare `writerStep_tok`). -/
theorem readerStep_tok : ∀ (c : Config) (i : Nat) (pc : RPc) (w : Bool)
    (c' : Config), c.writer_priority = false → cnt badR c.readers = 0 →
    c.readers[i]? = some pc → readerStep c i pc w = some c' →
    (if c'.conflicts != c.conflicts then 1 else 0)
      + tokR ((c'.readers[i]?).getD .inRegion)
      ≤ (if pc == RPc.idle then 1 else 0) + tokR pc := by
  intro c i pc w c' hwp hbad hg h
  cases pc with
  | idle =>
      simp only [readerStep, hwp] at h
      rw [if_neg (by simp)] at h
      rw [Option.some.injEq] at h
      subst h
      rw [get?_set_self _ _ _ _ hg]
      simp [tokR]
  | acqReadTry =>
      simp only [readerStep, hwp] at h
      split at h
      · simp at h
      · rw [Option.some.injEq] at h
        subst h
        rw [get?_set_self _ _ _ _ hg]
        simp [tokR]
  | decWaiting =>
      exact absurd (cnt_pos badR c.readers i _ hg (by simp [badR])) (by omega)
  | checkWW =>
      exact absurd (cnt_pos badR c.readers i _ hg (by simp [badR])) (by omega)
  | condWait => simp [readerStep] at h
  | reCheck =>
      exact absurd (cnt_pos badR c.readers i _ hg (by simp [badR])) (by omega)
  | lockedInc =>
      simp only [readerStep] at h
      split at h
      · simp at h
      · split at h
        all_goals
          rw [Option.some.injEq] at h
          subst h
          rw [get?_set_self _ _ _ _ hg]
          simp [tokR]
  | acqWritersMutex =>
      simp only [readerStep] at h
      split at h
      · simp at h
      · rw [Option.some.injEq] at h
        subst h
        rw [get?_set_self _ _ _ _ hg]
        simp [tokR]
  | relReadTry =>
      simp only [readerStep] at h
      rw [Option.some.injEq] at h
      subst h
      rw [get?_set_self _ _ _ _ hg]
      simp [tokR]
  | incActive =>
      simp only [readerStep] at h
      rw [Option.some.injEq] at h
      subst h
      rw [get?_set_self _ _ _ _ hg]
      simp [tokR]
  | thresholdCheck =>
      simp only [readerStep] at h
      rw [Option.some.injEq] at h
      subst h
      rw [get?_set_self _ _ _ _ hg]
      simp only [Option.getD_some, tokR]
      split <;> simp
  | inRegion =>
      simp only [readerStep] at h
      rw [Option.some.injEq] at h
      subst h
      rw [get?_set_self _ _ _ _ hg]
      simp [tokR]
  | exitLocked =>
      simp only [readerStep] at h
      split at h
      · simp at h
      · rw [Option.some.injEq] at h
        subst h
        rw [get?_set_self _ _ _ _ hg]
        simp [tokR]
  | exitStats =>
      simp only [readerStep] at h
      split at h <;> (rw [Option.some.injEq] at h; subst h)
      · have hg2 : (notifyAll c.readers)[i]? = some (wake RPc.exitStats) := by
          rw [notifyAll, get?_map, hg]
          rfl
        rw [get?_set_self _ _ _ _ hg2]
        simp [tokR]
      · rw [get?_set_self _ _ _ _ hg]
        simp [tokR]

/-- Shape of the reader list after any reader step: its own slot is set,
with the rest either untouched or woken by `notify_all`. -/
theorem readerStep_readers_set : ∀ (c : Config) (j : Nat) (pc : RPc)
    (w : Bool) (c' : Config), readerStep c j pc w = some c' →
    (∃ npc, c'.readers = c.readers.set j npc) ∨
    (∃ npc, c'.readers = (notifyAll c.readers).set j npc) := by
  intro c j pc w c' h
  cases pc <;> simp only [readerStep] at h <;> (try split at h) <;>
    (try split at h) <;>
    first
    | (rw [Option.some.injEq] at h; subst h; exact Or.inl ⟨_, rfl⟩)
    | (rw [Option.some.injEq] at h; subst h; exact Or.inr ⟨_, rfl⟩)
    | simp at h

/-- In a state whose readers avoid the writer-priority-only program points,
a `notify_all` does not move any reader. -/
theorem getD_notifyAll (l : List RPc) (i : Nat) (hz : cnt badR l = 0) :
    ((notifyAll l)[i]?).getD RPc.inRegion = (l[i]?).getD RPc.inRegion := by
  rw [notifyAll, get?_map]
  cases hg : l[i]? with
  | none => rfl
  | some pc =>
      have hb := cnt_zero badR l i pc hz hg
      have hwk : wake pc = pc := by
        cases pc <;> first | rfl | simp [badR] at hb
      simp [hwk]

/-- Writer conflict accounting, any mode: a writer thread's conflict-
changing steps never outnumber the `writer_enter` calls it has started
(plus the allowance of a call already in flight). -/
theorem w_bound : ∀ (ls : List RWLabel) (c : Config) (i : Nat),
    conflictSteps (isW i) c ls
      ≤ callsStarted (isW i) c ls + tokW ((c.writers[i]?).getD .inRegion) := by
  intro ls
  induction ls with
  | nil => intro c i; simp [conflictSteps, callsStarted]
  | cons l ls ih =>
      intro c i
      simp only [conflictSteps, callsStarted]
      cases hs : step c l with
      | none => simp
      | some c' =>
          simp only [Option.elim]
          cases l with
          | rstep j w =>
              have hfr : c'.writers = c.writers := by
                simp only [step] at hs
                cases hg : c.readers[j]? with
                | none => rw [hg] at hs; simp at hs
                | some pc =>
                    rw [hg] at hs
                    simp only [Option.some_bind] at hs
                    exact (readerStep_frame _ _ _ _ _ hs).1
              have H := ih c' i
              rw [hfr] at H
              simp only [isW, Bool.false_and]
              simp
              omega
          | wstep j w =>
              simp only [step] at hs
              cases hg : c.writers[j]? with
              | none => rw [hg] at hs; simp at hs
              | some pc =>
                  rw [hg] at hs
                  simp only [Option.some_bind] at hs
                  by_cases hij : j = i
                  · subst hij
                    have hT := writerStep_tok c j pc w c' hg hs
                    have H := ih c' j
                    have hsc : (some pc == some WPc.idle) = (pc == WPc.idle) := by
                      cases pc <;> rfl
                    simp only [isW, startsCall, hg, beq_self_eq_true,
                      Bool.true_and, Option.getD_some, hsc]
                    omega
                  · obtain ⟨npc, hw⟩ := (writerStep_frame c j pc w c' hs).2.2.2
                    have H := ih c' i
                    rw [hw, get?_set_other _ _ _ _ (fun hh => hij hh.symm)] at H
                    have hb2 : (j == i) = false := by simpa using hij
                    simp only [isW, hb2, Bool.false_and]
                    simp
                    omega

/-- Reader conflict accounting, reader-priority mode: a reader thread's
conflict-changing steps never outnumber the `reader_enter` calls it has
started (plus the allowance of a call already in flight). -/
theorem r_bound : ∀ (ls : List RWLabel) (c : Config) (i : Nat), RPInv c →
    conflictSteps (isR i) c ls
      ≤ callsStarted (isR i) c ls + tokR ((c.readers[i]?).getD .inRegion) := by
  intro ls
  induction ls with
  | nil => intro c i _; simp [conflictSteps, callsStarted]
  | cons l ls ih =>
      intro c i hInv
      obtain ⟨hwp, hwr, hbad⟩ := hInv
      simp only [conflictSteps, callsStarted]
      cases hs : step c l with
      | none => simp
      | some c' =>
          simp only [Option.elim]
          have hInvc' : RPInv c' := rp_step c l c' ⟨hwp, hwr, hbad⟩ hs
          cases l with
          | wstep j w =>
              simp only [step] at hs
              cases hg : c.writers[j]? with
              | none => rw [hg] at hs; simp at hs
              | some pc =>
                  rw [hg] at hs
                  simp only [Option.some_bind] at hs
                  have hfr := (writerStep_frame c j pc w c' hs).1
                  have H := ih c' i hInvc'
                  have hre : ((c'.readers[i]?).getD RPc.inRegion)
                      = ((c.readers[i]?).getD RPc.inRegion) := by
                    rcases hfr with hr | hr
                    · rw [hr]
                    · rw [hr, getD_notifyAll c.readers i hbad]
                  rw [hre] at H
                  simp only [isR, Bool.false_and]
                  simp
                  omega
          | rstep j w =>
              simp only [step] at hs
              cases hg : c.readers[j]? with
              | none => rw [hg] at hs; simp at hs
              | some pc =>
                  rw [hg] at hs
                  simp only [Option.some_bind] at hs
                  by_cases hij : j = i
                  · subst hij
                    have hT := readerStep_tok c j pc w c' hwp hbad hg hs
                    have H := ih c' j hInvc'
                    have hsc : (some pc == some RPc.idle) = (pc == RPc.idle) := by
                      cases pc <;> rfl
                    simp only [isR, startsCall, hg, beq_self_eq_true,
                      Bool.true_and, Option.getD_some, hsc]
                    omega
                  · have H := ih c' i hInvc'
                    have hre : ((c'.readers[i]?).getD RPc.inRegion)
                        = ((c.readers[i]?).getD RPc.inRegion) := by
                      rcases readerStep_readers_set c j pc w c' hs with
                        ⟨npc, hr⟩ | ⟨npc, hr⟩
                      · rw [hr, get?_set_other _ _ _ _ (fun hh => hij hh.symm)]
                      · rw [hr, get?_set_other _ _ _ _ (fun hh => hij hh.symm),
                          getD_notifyAll c.readers i hbad]
                    rw [hre] at H
                    have hb2 : (j == i) = false := by simpa using hij
                    simp only [isR, hb2, Bool.false_and]
                    simp
                    omega

/-- C4 amended: the per-call conflict accounting the code actually
implements.  In reader-priority mode (both roles), and for `writer_enter`
in either mode, a single enter call changes `conflicts` at most once —
exactly the 100 ms threshold rule; only the writer-priority `reader_enter`
path can exceed this, by incrementing once per guard check that observes a
positive waiting-writer count (see `c4_counterexample`). -/
theorem c4_conflict_accounting :
    ∀ (nR nW : Nat) (ls : List RWLabel) (i : Nat) (wp : Bool),
      conflictSteps (isR i) (initRW nR nW false) ls
        ≤ callsStarted (isR i) (initRW nR nW false) ls ∧
      conflictSteps (isW i) (initRW nR nW wp) ls
        ≤ callsStarted (isW i) (initRW nR nW wp) ls := by
  intro nR nW ls i wp
  constructor
  · have H := r_bound ls (initRW nR nW false) i (rpInv_init nR nW)
    have ht : tokR (((initRW nR nW false).readers[i]?).getD .inRegion) = 0 := by
      show tokR (((List.replicate nR RPc.idle)[i]?).getD .inRegion) = 0
      rw [get?_replicate]
      split <;> rfl
    omega
  · have H := w_bound ls (initRW nR nW wp) i
    have ht : tokW (((initRW nR nW wp).writers[i]?).getD .inRegion) = 0 := by
      show tokW (((List.replicate nW WPc.idle)[i]?).getD .inRegion) = 0
      rw [get?_replicate]
      split <;> rfl
    omega

end RWLock

namespace Fair

/-- Program point of a thread using `FairReaderWriterLock`
(src/sync.py, lines 234-288): outside the lock, parked in a condition
wait, woken and about to re-check the guard, or inside the critical
section. -/
inductive FPc where
  | idle
  | wait
  | ready
  | region
deriving DecidableEq, Repr

/-- Shared state of a `FairReaderWriterLock` (lines 242-252) plus the
program points of all reader and writer threads. -/
structure FConfig where
  readers_count : Int
  writer_active : Bool
  waiting_readers : Int
  waiting_writers : Int
  readers : List FPc
  writers : List FPc
deriving DecidableEq, Repr

/-- Effect of `notify_all` on one parked thread. -/
def wakeF (pc : FPc) : FPc := if pc = .wait then .ready else pc

/-- Whether some thread of the list is parked in a condition wait — the
condition `notify` wakes one thread exactly when one is waiting. -/
def hasWaiter (l : List FPc) : Bool := l.any (· == FPc.wait)

/-- One atomic monitor section of reader thread `i` at program point `pc`
(`reader_enter` lines 254-262, `reader_exit` lines 264-269).  `pick`
chooses which parked writer a `notify` wakes. -/
def readerStepF (c : FConfig) (i : Nat) (pc : FPc) (pick : Nat) :
    Option FConfig :=
  match pc with
  | .idle =>
      if c.writer_active || decide (0 < c.waiting_writers) then
        some { c with waiting_readers := c.waiting_readers + 1,
                      readers := c.readers.set i .wait }
      else
        some { c with readers_count := c.readers_count + 1,
                      readers := c.readers.set i .region }
  | .ready =>
      if c.writer_active || decide (0 < c.waiting_writers) then
        some { c with readers := c.readers.set i .wait }
      else
        some { c with waiting_readers := c.waiting_readers - 1,
                      readers_count := c.readers_count + 1,
                      readers := c.readers.set i .region }
  | .wait => none
  | .region =>
      if c.readers_count - 1 = 0 then
        if hasWaiter c.writers then
          if c.writers[pick]? == some FPc.wait then
            some { c with readers_count := c.readers_count - 1,
                          readers := c.readers.set i .idle,
                          writers := c.writers.set pick .ready }
          else none
        else
          some { c with readers_count := c.readers_count - 1,
                        readers := c.readers.set i .idle }
      else
        some { c with readers_count := c.readers_count - 1,
                      readers := c.readers.set i .idle }

/-- One atomic monitor section of writer thread `i` at program point `pc`
(`writer_enter` lines 271-279, `writer_exit` lines 281-288). -/
def writerStepF (c : FConfig) (i : Nat) (pc : FPc) (pick : Nat) :
    Option FConfig :=
  match pc with
  | .idle =>
      if c.writer_active || decide (0 < c.readers_count) then
        some { c with waiting_writers := c.waiting_writers + 1,
                      writers := c.writers.set i .wait }
      else
        some { c with writer_active := true,
                      writers := c.writers.set i .region }
  | .ready =>
      if c.writer_active || decide (0 < c.readers_count) then
        some { c with writers := c.writers.set i .wait }
      else
        some { c with waiting_writers := c.waiting_writers - 1,
                      writer_active := true,
                      writers := c.writers.set i .region }
  | .wait => none
  | .region =>
      if 0 < c.waiting_readers then
        some { c with writer_active := false,
                      readers := c.readers.map wakeF,
                      writers := c.writers.set i .idle }
      else if hasWaiter (c.writers.set i .idle) then
        if (c.writers.set i FPc.idle)[pick]? == some FPc.wait then
          some { c with writer_active := false,
                        writers := (c.writers.set i .idle).set pick .ready }
        else none
      else
        some { c with writer_active := false,
                      writers := c.writers.set i .idle }

/-- A scheduling choice for the fair lock. -/
inductive FLabel where
  | rstep (i : Nat) (pick : Nat)
  | wstep (i : Nat) (pick : Nat)
deriving DecidableEq, Repr

/-- Global small-step of the fair lock. -/
def stepF (c : FConfig) : FLabel → Option FConfig
  | .rstep i pick => (c.readers[i]?).bind fun pc => readerStepF c i pc pick
  | .wstep i pick => (c.writers[i]?).bind fun pc => writerStepF c i pc pick

/-- Run a whole schedule. -/
def execF (c : FConfig) : List FLabel → Option FConfig
  | [] => some c
  | l :: ls => (stepF c l).bind fun c' => execF c' ls

/-- Initial state of `FairReaderWriterLock.__init__` (lines 242-252). -/
def initF (nR nW : Nat) : FConfig :=
  { readers_count := 0
    writer_active := false
    waiting_readers := 0
    waiting_writers := 0
    readers := List.replicate nR .idle
    writers := List.replicate nW .idle }

theorem execF_inv {P : FConfig → Prop}
    (hstep : ∀ c l c', P c → stepF c l = some c' → P c') :
    ∀ (ls : List FLabel) (c c' : FConfig), P c → execF c ls = some c' → P c' := by
  intro ls
  induction ls with
  | nil =>
      intro c c' hP h
      simp [execF] at h
      exact h ▸ hP
  | cons l ls ih =>
      intro c c' hP h
      simp only [execF] at h
      cases hs : stepF c l with
      | none => rw [hs] at h; simp at h
      | some c1 =>
          rw [hs] at h
          simp only [Option.some_bind] at h
          exact ih c1 c' (hstep c l c1 hP hs) h

/-- Threads inside the critical section. -/
def isRegionF : FPc → Bool := fun pc => pc == FPc.region

/-- Threads counted by the waiting counters: parked in a condition wait or
woken but not yet past the guard re-check (the counter is decremented only
after the `while` loop exits). -/
def isWaitingF : FPc → Bool := fun pc => pc == FPc.wait || pc == FPc.ready

theorem isRegionF_wakeF : ∀ pc, isRegionF (wakeF pc) = isRegionF pc := by
  intro pc
  cases pc <;> rfl

theorem isWaitingF_wakeF : ∀ pc, isWaitingF (wakeF pc) = isWaitingF pc := by
  intro pc
  cases pc <;> rfl

/-- Counter-coherence invariant of the fair lock: the shared counters agree
with the thread program points, `writer_active` marks exactly one writer in
the region, and a writer in the region excludes every reader. -/
def FInv (c : FConfig) : Prop :=
  c.readers_count = (cnt isRegionF c.readers : Int) ∧
  c.waiting_readers = (cnt isWaitingF c.readers : Int) ∧
  c.waiting_writers = (cnt isWaitingF c.writers : Int) ∧
  cnt isRegionF c.writers = (if c.writer_active then 1 else 0) ∧
  (c.writer_active = true → cnt isRegionF c.readers = 0)

theorem fInv_init (nR nW : Nat) : FInv (initF nR nW) := by
  unfold FInv initF
  simp [cnt_replicate, isRegionF, isWaitingF]


/-- Every step of the fair lock preserves `FInv`. -/
theorem fInv_step : ∀ (c : FConfig) (l : FLabel) (c' : FConfig),
    FInv c → stepF c l = some c' → FInv c' := by
  intro c l c' hInv hstep
  obtain ⟨h1, h2, h3, h4, h5⟩ := hInv
  cases l with
  | rstep i pick =>
      simp only [stepF] at hstep
      cases hget : c.readers[i]? with
      | none => rw [hget] at hstep; simp at hstep
      | some pc =>
          rw [hget] at hstep
          simp only [Option.some_bind] at hstep
          cases pc with
          | idle =>
              simp only [readerStepF] at hstep
              split at hstep <;> rename_i hguard <;>
                rw [Option.some.injEq] at hstep <;> subst hstep
              · have e1 := cnt_set isRegionF c.readers i _ FPc.wait hget
                have e2 := cnt_set isWaitingF c.readers i _ FPc.wait hget
                simp [isRegionF, isWaitingF] at e1 e2
                unfold FInv
                dsimp only
                exact ⟨by omega, by omega, h3, h4,
                  fun hw => by have := h5 hw; omega⟩
              · simp at hguard
                obtain ⟨hwa, hww⟩ := hguard
                have e1 := cnt_set isRegionF c.readers i _ FPc.region hget
                have e2 := cnt_set isWaitingF c.readers i _ FPc.region hget
                simp [isRegionF, isWaitingF] at e1 e2
                unfold FInv
                dsimp only
                exact ⟨by omega, by omega, h3, h4,
                  fun hw => Bool.noConfusion (hwa.symm.trans hw)⟩
          | ready =>
              simp only [readerStepF] at hstep
              split at hstep <;> rename_i hguard <;>
                rw [Option.some.injEq] at hstep <;> subst hstep
              · have e1 := cnt_set isRegionF c.readers i _ FPc.wait hget
                have e2 := cnt_set isWaitingF c.readers i _ FPc.wait hget
                simp [isRegionF, isWaitingF] at e1 e2
                unfold FInv
                dsimp only
                exact ⟨by omega, by omega, h3, h4,
                  fun hw => by have := h5 hw; omega⟩
              · simp at hguard
                obtain ⟨hwa, hww⟩ := hguard
                have e1 := cnt_set isRegionF c.readers i _ FPc.region hget
                have e2 := cnt_set isWaitingF c.readers i _ FPc.region hget
                simp [isRegionF, isWaitingF] at e1 e2
                unfold FInv
                dsimp only
                exact ⟨by omega, by omega, h3, h4,
                  fun hw => Bool.noConfusion (hwa.symm.trans hw)⟩
          | wait => simp [readerStepF] at hstep
          | region =>
              have hp := cnt_pos isRegionF c.readers i _ hget (by simp [isRegionF])
              have e1 := cnt_set isRegionF c.readers i _ FPc.idle hget
              have e2 := cnt_set isWaitingF c.readers i _ FPc.idle hget
              simp [isRegionF, isWaitingF] at e1 e2
              simp only [readerStepF] at hstep
              split at hstep
              · split at hstep
                · split at hstep <;> rename_i hpick
                  · rw [beq_iff_eq] at hpick
                    rw [Option.some.injEq] at hstep
                    subst hstep
                    have e3 := cnt_set isWaitingF c.writers pick _ FPc.ready hpick
                    have e4 := cnt_set isRegionF c.writers pick _ FPc.ready hpick
                    simp [isRegionF, isWaitingF] at e3 e4
                    unfold FInv
                    dsimp only
                    refine ⟨by omega, by omega, by omega, ?_,
                      fun hw => by have := h5 hw; omega⟩
                    have e4' : cnt isRegionF (c.writers.set pick FPc.ready)
                        = cnt isRegionF c.writers := by omega
                    rw [e4']
                    exact h4
                  · simp at hstep
                · rw [Option.some.injEq] at hstep
                  subst hstep
                  unfold FInv
                  dsimp only
                  exact ⟨by omega, by omega, h3, h4,
                    fun hw => by have := h5 hw; omega⟩
              · rw [Option.some.injEq] at hstep
                subst hstep
                unfold FInv
                dsimp only
                exact ⟨by omega, by omega, h3, h4,
                  fun hw => by have := h5 hw; omega⟩
  | wstep i pick =>
      simp only [stepF] at hstep
      cases hget : c.writers[i]? with
      | none => rw [hget] at hstep; simp at hstep
      | some pc =>
          rw [hget] at hstep
          simp only [Option.some_bind] at hstep
          cases pc with
          | idle =>
              simp only [writerStepF] at hstep
              split at hstep <;> rename_i hguard <;>
                rw [Option.some.injEq] at hstep <;> subst hstep
              · have e3 := cnt_set isWaitingF c.writers i _ FPc.wait hget
                have e4 := cnt_set isRegionF c.writers i _ FPc.wait hget
                simp [isRegionF, isWaitingF] at e3 e4
                unfold FInv
                dsimp only
                refine ⟨h1, h2, by omega, ?_, h5⟩
                have e4' : cnt isRegionF (c.writers.set i FPc.wait)
                    = cnt isRegionF c.writers := by omega
                rw [e4']
                exact h4
              · simp at hguard
                obtain ⟨hwa, hrc⟩ := hguard
                have e3 := cnt_set isWaitingF c.writers i _ FPc.region hget
                have e4 := cnt_set isRegionF c.writers i _ FPc.region hget
                simp [isRegionF, isWaitingF] at e3 e4
                rw [hwa] at h4
                simp at h4
                unfold FInv
                dsimp only
                refine ⟨h1, h2, by omega, ?_, fun _ => by omega⟩
                rw [if_pos rfl]
                omega
          | ready =>
              simp only [writerStepF] at hstep
              split at hstep <;> rename_i hguard <;>
                rw [Option.some.injEq] at hstep <;> subst hstep
              · have e3 := cnt_set isWaitingF c.writers i _ FPc.wait hget
                have e4 := cnt_set isRegionF c.writers i _ FPc.wait hget
                simp [isRegionF, isWaitingF] at e3 e4
                unfold FInv
                dsimp only
                refine ⟨h1, h2, by omega, ?_, h5⟩
                have e4' : cnt isRegionF (c.writers.set i FPc.wait)
                    = cnt isRegionF c.writers := by omega
                rw [e4']
                exact h4
              · simp at hguard
                obtain ⟨hwa, hrc⟩ := hguard
                have e3 := cnt_set isWaitingF c.writers i _ FPc.region hget
                have e4 := cnt_set isRegionF c.writers i _ FPc.region hget
                simp [isRegionF, isWaitingF] at e3 e4
                rw [hwa] at h4
                simp at h4
                unfold FInv
                dsimp only
                refine ⟨h1, h2, by omega, ?_, fun _ => by omega⟩
                rw [if_pos rfl]
                omega
          | wait => simp [writerStepF] at hstep
          | region =>
              have hp := cnt_pos isRegionF c.writers i _ hget (by simp [isRegionF])
              have hwa : c.writer_active = true := by
                cases hx : c.writer_active
                · rw [hx] at h4
                  simp at h4
                  omega
                · rfl
              rw [hwa] at h4
              simp at h4
              have e3 := cnt_set isWaitingF c.writers i _ FPc.idle hget
              have e4 := cnt_set isRegionF c.writers i _ FPc.idle hget
              simp [isRegionF, isWaitingF] at e3 e4
              simp only [writerStepF] at hstep
              split at hstep
              · rw [Option.some.injEq] at hstep
                subst hstep
                unfold FInv
                dsimp only
                rw [cnt_map isRegionF wakeF isRegionF_wakeF,
                  cnt_map isWaitingF wakeF isWaitingF_wakeF]
                exact ⟨h1, h2, by omega, by rw [if_neg (by simp)]; omega,
                  fun hw => Bool.noConfusion hw⟩
              · split at hstep
                · split at hstep <;> rename_i hpick
                  · rw [beq_iff_eq] at hpick
                    rw [Option.some.injEq] at hstep
                    subst hstep
                    have e3b := cnt_set isWaitingF (c.writers.set i FPc.idle)
                      pick _ FPc.ready hpick
                    have e4b := cnt_set isRegionF (c.writers.set i FPc.idle)
                      pick _ FPc.ready hpick
                    simp [isRegionF, isWaitingF] at e3b e4b
                    unfold FInv
                    dsimp only
                    exact ⟨h1, h2, by omega, by rw [if_neg (by simp)]; omega,
                      fun hw => Bool.noConfusion hw⟩
                  · simp at hstep
                · rw [Option.some.injEq] at hstep
                  subst hstep
                  unfold FInv
                  dsimp only
                  exact ⟨h1, h2, by omega, by rw [if_neg (by simp)]; omega,
                    fun hw => Bool.noConfusion hw⟩


/-- C9: in every state of `FairReaderWriterLock` reachable by correctly
paired enter/exit operations, an active writer excludes all readers, at
most one writer is inside the critical section, and none of the three
counters is negative. -/
theorem c9_fair_invariant :
    ∀ (nR nW : Nat) (ls : List FLabel) (c : FConfig),
      execF (initF nR nW) ls = some c →
      (c.writer_active = true → c.readers_count = 0) ∧
      cnt isRegionF c.writers ≤ 1 ∧
      0 ≤ c.readers_count ∧ 0 ≤ c.waiting_readers ∧ 0 ≤ c.waiting_writers := by
  intro nR nW ls c hexec
  obtain ⟨h1, h2, h3, h4, h5⟩ :=
    execF_inv fInv_step ls _ c (fInv_init nR nW) hexec
  refine ⟨fun hw => by have := h5 hw; omega, ?_, by omega, by omega, by omega⟩
  cases hx : c.writer_active <;> rw [hx] at h4 <;> simp at h4 <;> omega

/-- The state reached from `initF 1 1` after the writer enters. -/
def c9WitnessState : FConfig :=
  { readers_count := 0, writer_active := true, waiting_readers := 0,
    waiting_writers := 0, readers := [.idle], writers := [.region] }

/-- Witness for `c9_fair_invariant` at a concrete reachable state with an
active writer. -/
theorem c9_fair_invariant_witness : c9WitnessState.readers_count = 0 :=
  (c9_fair_invariant 1 1 [.wstep 0 0] c9WitnessState (by decide)).1 rfl

/-- Shape of the writer list after any reader step: untouched, or one
parked writer moved to runnable by the `reader_exit` notify. -/
theorem readerStepF_writers : ∀ (c : FConfig) (j : Nat) (pc : FPc)
    (pick : Nat) (c' : FConfig), readerStepF c j pc pick = some c' →
    c'.writers = c.writers ∨
    (∃ q, c'.writers = c.writers.set q FPc.ready ∧
      c.writers[q]? = some FPc.wait) := by
  intro c j pc pick c' h
  cases pc with
  | idle =>
      simp only [readerStepF] at h
      split at h
      all_goals
        rw [Option.some.injEq] at h
        subst h
        exact Or.inl rfl
  | ready =>
      simp only [readerStepF] at h
      split at h
      all_goals
        rw [Option.some.injEq] at h
        subst h
        exact Or.inl rfl
  | wait => simp [readerStepF] at h
  | region =>
      simp only [readerStepF] at h
      split at h
      · split at h
        · split at h <;> rename_i hpick
          · rw [beq_iff_eq] at hpick
            rw [Option.some.injEq] at h
            subst h
            exact Or.inr ⟨pick, rfl, hpick⟩
          · simp at h
        · rw [Option.some.injEq] at h
          subst h
          exact Or.inl rfl
      · rw [Option.some.injEq] at h
        subst h
        exact Or.inl rfl

/-- Shape of the reader list after any writer step: untouched or woken
wholesale by the `writer_exit` broadcast. -/
theorem writerStepF_readers : ∀ (c : FConfig) (j : Nat) (pc : FPc)
    (pick : Nat) (c' : FConfig), writerStepF c j pc pick = some c' →
    c'.readers = c.readers ∨ c'.readers = c.readers.map wakeF := by
  intro c j pc pick c' h
  cases pc <;> simp only [writerStepF] at h <;> (try split at h) <;>
    (try split at h) <;> (try split at h) <;>
    first
    | (rw [Option.some.injEq] at h; subst h; exact Or.inl rfl)
    | (rw [Option.some.injEq] at h; subst h; exact Or.inr rfl)
    | simp at h

/-- `reader_enter` admission: whenever a step makes some reader active, the
pre-state satisfied the negated guard of line 258 — no writer active and no
writer waiting.  Contrapositive: while `writer_active` or
`waiting_writers > 0`, a reader stays blocked. -/
theorem reader_admit_guard : ∀ (c : FConfig) (l : FLabel) (c' : FConfig),
    stepF c l = some c' →
    ∀ (i : Nat), c.readers[i]? ≠ some FPc.region →
      c'.readers[i]? = some FPc.region →
      c.writer_active = false ∧ ¬ 0 < c.waiting_writers := by
  intro c l c' hstep i h1 h2
  cases l with
  | rstep j pick =>
      simp only [stepF] at hstep
      cases hget : c.readers[j]? with
      | none => rw [hget] at hstep; simp at hstep
      | some pc =>
          rw [hget] at hstep
          simp only [Option.some_bind] at hstep
          cases pc with
          | idle =>
              simp only [readerStepF] at hstep
              split at hstep <;> rename_i hguard <;>
                rw [Option.some.injEq] at hstep <;> subst hstep <;>
                dsimp only at h2
              · by_cases hij : i = j
                · subst hij
                  rw [get?_set_self _ _ _ _ hget] at h2
                  simp at h2
                · rw [get?_set_other _ _ _ _ hij] at h2
                  exact absurd h2 h1
              · simp at hguard
                exact ⟨hguard.1, by omega⟩
          | ready =>
              simp only [readerStepF] at hstep
              split at hstep <;> rename_i hguard <;>
                rw [Option.some.injEq] at hstep <;> subst hstep <;>
                dsimp only at h2
              · by_cases hij : i = j
                · subst hij
                  rw [get?_set_self _ _ _ _ hget] at h2
                  simp at h2
                · rw [get?_set_other _ _ _ _ hij] at h2
                  exact absurd h2 h1
              · simp at hguard
                exact ⟨hguard.1, by omega⟩
          | wait => simp [readerStepF] at hstep
          | region =>
              have hset : ∀ u : FConfig,
                  u.readers = c.readers.set j FPc.idle →
                  u.readers[i]? = some FPc.region → False := by
                intro u hu h2'
                rw [hu] at h2'
                by_cases hij : i = j
                · subst hij
                  rw [get?_set_self _ _ _ _ hget] at h2'
                  simp at h2'
                · rw [get?_set_other _ _ _ _ hij] at h2'
                  exact absurd h2' h1
              simp only [readerStepF] at hstep
              split at hstep
              · split at hstep
                · split at hstep
                  · rw [Option.some.injEq] at hstep
                    subst hstep
                    exact absurd h2 (fun hk => hset _ rfl hk)
                  · simp at hstep
                · rw [Option.some.injEq] at hstep
                  subst hstep
                  exact absurd h2 (fun hk => hset _ rfl hk)
              · rw [Option.some.injEq] at hstep
                subst hstep
                exact absurd h2 (fun hk => hset _ rfl hk)
  | wstep j pick =>
      simp only [stepF] at hstep
      cases hget : c.writers[j]? with
      | none => rw [hget] at hstep; simp at hstep
      | some pc =>
          rw [hget] at hstep
          simp only [Option.some_bind] at hstep
          rcases writerStepF_readers c j pc pick c' hstep with hr | hr
          · rw [hr] at h2
            exact absurd h2 h1
          · rw [hr, get?_map] at h2
            cases hg2 : c.readers[i]? with
            | none => rw [hg2] at h2; simp at h2
            | some pc0 =>
                rw [hg2] at h2
                simp only [Option.map_some'] at h2
                rw [Option.some.injEq] at h2
                cases pc0
                · simp [wakeF] at h2
                · simp [wakeF] at h2
                · simp [wakeF] at h2
                · exact absurd hg2 h1

/-- `writer_enter` admission: whenever a step makes some writer active, the
pre-state satisfied the negated guard of line 275 — no writer active and no
reader inside.  Contrapositive: while `writer_active` or
`readers_count > 0`, a writer stays blocked. -/
theorem writer_admit_guard : ∀ (c : FConfig) (l : FLabel) (c' : FConfig),
    stepF c l = some c' →
    ∀ (i : Nat), c.writers[i]? ≠ some FPc.region →
      c'.writers[i]? = some FPc.region →
      c.writer_active = false ∧ ¬ 0 < c.readers_count := by
  intro c l c' hstep i h1 h2
  cases l with
  | rstep j pick =>
      simp only [stepF] at hstep
      cases hget : c.readers[j]? with
      | none => rw [hget] at hstep; simp at hstep
      | some pc =>
          rw [hget] at hstep
          simp only [Option.some_bind] at hstep
          rcases readerStepF_writers c j pc pick c' hstep with hr | ⟨q, hr, hq⟩
          · rw [hr] at h2
            exact absurd h2 h1
          · rw [hr] at h2
            by_cases hiq : i = q
            · subst hiq
              rw [get?_set_self _ _ _ _ hq] at h2
              simp at h2
            · rw [get?_set_other _ _ _ _ hiq] at h2
              exact absurd h2 h1
  | wstep j pick =>
      simp only [stepF] at hstep
      cases hget : c.writers[j]? with
      | none => rw [hget] at hstep; simp at hstep
      | some pc =>
          rw [hget] at hstep
          simp only [Option.some_bind] at hstep
          cases pc with
          | idle =>
              simp only [writerStepF] at hstep
              split at hstep <;> rename_i hguard <;>
                rw [Option.some.injEq] at hstep <;> subst hstep <;>
                dsimp only at h2
              · by_cases hij : i = j
                · subst hij
                  rw [get?_set_self _ _ _ _ hget] at h2
                  simp at h2
                · rw [get?_set_other _ _ _ _ hij] at h2
                  exact absurd h2 h1
              · simp at hguard
                exact ⟨hguard.1, by omega⟩
          | ready =>
              simp only [writerStepF] at hstep
              split at hstep <;> rename_i hguard <;>
                rw [Option.some.injEq] at hstep <;> subst hstep <;>
                dsimp only at h2
              · by_cases hij : i = j
                · subst hij
                  rw [get?_set_self _ _ _ _ hget] at h2
                  simp at h2
                · rw [get?_set_other _ _ _ _ hij] at h2
                  exact absurd h2 h1
              · simp at hguard
                exact ⟨hguard.1, by omega⟩
          | wait => simp [writerStepF] at hstep
          | region =>
              simp only [writerStepF] at hstep
              split at hstep
              · rw [Option.some.injEq] at hstep
                subst hstep
                dsimp only at h2
                by_cases hij : i = j
                · subst hij
                  rw [get?_set_self _ _ _ _ hget] at h2
                  simp at h2
                · rw [get?_set_other _ _ _ _ hij] at h2
                  exact absurd h2 h1
              · split at hstep
                · split at hstep <;> rename_i hpick
                  · rw [beq_iff_eq] at hpick
                    rw [Option.some.injEq] at hstep
                    subst hstep
                    dsimp only at h2
                    by_cases hip : i = pick
                    · subst hip
                      rw [get?_set_self _ _ _ _ hpick] at h2
                      simp at h2
                    · rw [get?_set_other _ _ _ _ hip] at h2
                      by_cases hij : i = j
                      · subst hij
                        rw [get?_set_self _ _ _ _ hget] at h2
                        simp at h2
                      · rw [get?_set_other _ _ _ _ hij] at h2
                        exact absurd h2 h1
                  · simp at hstep
                · rw [Option.some.injEq] at hstep
                  subst hstep
                  dsimp only at h2
                  by_cases hij : i = j
                  · subst hij
                    rw [get?_set_self _ _ _ _ hget] at h2
                    simp at h2
                  · rw [get?_set_other _ _ _ _ hij] at h2
                    exact absurd h2 h1

/-- `writer_exit` effect (lines 281-288): with readers waiting they are all
woken together; otherwise one chosen parked writer is woken when one
exists, and nothing is woken when none is. -/
theorem writer_exit_char : ∀ (c : FConfig) (i pick : Nat) (c' : FConfig),
    c.writers[i]? = some FPc.region →
    stepF c (FLabel.wstep i pick) = some c' →
    c'.writer_active = false ∧
    (0 < c.waiting_readers →
        c'.readers = c.readers.map wakeF ∧
        c'.writers = c.writers.set i FPc.idle) ∧
    (¬ 0 < c.waiting_readers →
        c'.readers = c.readers ∧
        ((hasWaiter (c.writers.set i FPc.idle) = true ∧
          (c.writers.set i FPc.idle)[pick]? = some FPc.wait ∧
          c'.writers = (c.writers.set i FPc.idle).set pick FPc.ready) ∨
         (hasWaiter (c.writers.set i FPc.idle) = false ∧
          c'.writers = c.writers.set i FPc.idle))) := by
  intro c i pick c' hget hstep
  simp only [stepF, hget, Option.some_bind, writerStepF] at hstep
  split at hstep <;> rename_i hwr
  · rw [Option.some.injEq] at hstep
    subst hstep
    exact ⟨rfl, fun _ => ⟨rfl, rfl⟩, fun hn => absurd hwr hn⟩
  · split at hstep <;> rename_i hhw
    · split at hstep <;> rename_i hpick
      · rw [beq_iff_eq] at hpick
        rw [Option.some.injEq] at hstep
        subst hstep
        exact ⟨rfl, fun hy => absurd hy hwr,
          fun _ => ⟨rfl, Or.inl ⟨hhw, hpick, rfl⟩⟩⟩
      · simp at hstep
    · rw [Option.some.injEq] at hstep
      subst hstep
      have hhw' : hasWaiter (c.writers.set i FPc.idle) = false := by
        simpa using hhw
      exact ⟨rfl, fun hy => absurd hy hwr,
        fun _ => ⟨rfl, Or.inr ⟨hhw', rfl⟩⟩⟩

/-- C5: the `FairReaderWriterLock` protocol.  A reader becomes active only
when no writer is active and none is waiting (so it blocks while either
holds); a writer becomes active only when no writer is active and no
reader is inside; and `writer_exit` wakes all waiting readers together
when there are any, otherwise it wakes a single waiting writer (when one
exists). -/
theorem c5_fair_lock_contract :
    ∀ (c : FConfig) (l : FLabel) (c' : FConfig), stepF c l = some c' →
      (∀ (i : Nat), c.readers[i]? ≠ some FPc.region →
        c'.readers[i]? = some FPc.region →
        c.writer_active = false ∧ ¬ 0 < c.waiting_writers) ∧
      (∀ (i : Nat), c.writers[i]? ≠ some FPc.region →
        c'.writers[i]? = some FPc.region →
        c.writer_active = false ∧ ¬ 0 < c.readers_count) ∧
      (∀ (i pick : Nat), l = FLabel.wstep i pick →
        c.writers[i]? = some FPc.region →
        c'.writer_active = false ∧
        (0 < c.waiting_readers →
            c'.readers = c.readers.map wakeF ∧
            c'.writers = c.writers.set i FPc.idle) ∧
        (¬ 0 < c.waiting_readers →
            c'.readers = c.readers ∧
            ((hasWaiter (c.writers.set i FPc.idle) = true ∧
              (c.writers.set i FPc.idle)[pick]? = some FPc.wait ∧
              c'.writers = (c.writers.set i FPc.idle).set pick FPc.ready) ∨
             (hasWaiter (c.writers.set i FPc.idle) = false ∧
              c'.writers = c.writers.set i FPc.idle)))) := by
  intro c l c' hstep
  exact ⟨reader_admit_guard c l c' hstep,
         writer_admit_guard c l c' hstep,
         fun i pick hl hg => writer_exit_char c i pick c' hg (hl ▸ hstep)⟩

/-- A fair-lock state with an active writer and one parked writer. -/
def c5State : FConfig :=
  { readers_count := 0, writer_active := true, waiting_readers := 0,
    waiting_writers := 1, readers := [], writers := [.region, .wait] }

/-- The state after the active writer of `c5State` runs `writer_exit`,
waking the parked writer. -/
def c5Next : FConfig :=
  { readers_count := 0, writer_active := false, waiting_readers := 0,
    waiting_writers := 1, readers := [], writers := [.idle, .ready] }

/-- Witness for `c5_fair_lock_contract` at a concrete `writer_exit` step. -/
theorem c5_fair_lock_contract_witness : c5Next.writer_active = false :=
  ((c5_fair_lock_contract c5State (.wstep 0 1) c5Next (by decide)).2.2 0 1
    rfl (by decide)).1

end Fair

namespace Sim

/-- The message channel: a `queue.Queue` with `maxsize` (0 means unbounded,
the default used by `SimulationManager.__init__`, src/simulation.py line
89) holding abstract message payloads. -/
structure MsgQueue where
  maxsize : Nat
  items : List Nat
deriving DecidableEq, Repr

/-- Whether a `put` on the queue would find it full. -/
def qFull (q : MsgQueue) : Bool := 0 < q.maxsize && q.maxsize ≤ q.items.length

/-- `queue.put(msg, timeout=0.1)` (line 377): appends, or raises
`queue.Full` when the queue stays full through the timeout.  The timeout
elapsing on a full queue is modelled as the `Full` outcome, so the call
never blocks for longer than the timeout. -/
def putWithTimeout (q : MsgQueue) (m : Nat) : Except Unit MsgQueue :=
  if qFull q then .error () else .ok { q with items := q.items ++ [m] }

/-- Configuration and lifecycle state of `SimulationManager`
(src/simulation.py, lines 52-96).  Threads are abstracted by numeric ids;
`lock_writer_priority` is the live `rw_lock.writer_priority` flag, and
`pauseWaiters` the workers suspended on `pause_condition`. -/
structure Manager where
  num_readers : Nat
  num_writers : Nat
  read_delay : ℚ
  write_delay : ℚ
  writer_priority : Bool
  lock_writer_priority : Bool
  running : Bool
  paused : Bool
  pauseWaiters : List Nat
  reader_threads : List Nat
  writer_threads : List Nat
  message_queue : MsgQueue
deriving DecidableEq, Repr

/-- `SimulationManager.update_configuration` (lines 382-412): each provided
field is stored; a provided priority also calls `rw_lock.set_priority`,
mutating the live lock. -/
def update_configuration (m : Manager) (nr nw : Option Nat)
    (rd wd : Option ℚ) (wp : Option Bool) : Manager :=
  let m1 := match nr with
    | some v => { m with num_readers := v }
    | none => m
  let m2 := match nw with
    | some v => { m1 with num_writers := v }
    | none => m1
  let m3 := match rd with
    | some v => { m2 with read_delay := v }
    | none => m2
  let m4 := match wd with
    | some v => { m3 with write_delay := v }
    | none => m3
  match wp with
  | some v => { m4 with writer_priority := v, lock_writer_priority := v }
  | none => m4

/-- Observable behavior of one iteration of `reader_worker` (lines
183-238): when the loop runs (not stopped, not paused) the delay passed to
`database.read` is the coordinator's current `read_delay` (line 219), and
the lock consulted by `reader_enter` follows the live priority flag. -/
def readerIterationView (m : Manager) : Option (ℚ × Bool) :=
  if m.running = false then none
  else if m.paused = true then none
  else some (m.read_delay, m.lock_writer_priority)

/-- Observable behavior of one iteration of `writer_worker` (lines
240-296), reading `write_delay` at line 277. -/
def writerIterationView (m : Manager) : Option (ℚ × Bool) :=
  if m.running = false then none
  else if m.paused = true then none
  else some (m.write_delay, m.lock_writer_priority)

/-- `SimulationManager.start` (lines 98-141): no-op when already running;
otherwise sets the run flags and spawns `num_readers` reader and
`num_writers` writer threads, appended to the registries. -/
def start (m : Manager) : Manager :=
  if m.running then m
  else
    { m with running := true, paused := false,
             reader_threads := m.reader_threads ++ List.range m.num_readers,
             writer_threads := m.writer_threads ++ List.range m.num_writers }

/-- Formalization of C3 as stated: while the coordinator is running, an
`update_configuration` call has no effect on the behavior of the
already-spawned worker pool — neither on the next reader iteration nor on
the next writer iteration. -/
def configUpdateInertClaim : Prop :=
  ∀ (m : Manager) (nr nw : Option Nat) (rd wd : Option ℚ) (wp : Option Bool),
    m.running = true →
    readerIterationView (update_configuration m nr nw rd wd wp)
      = readerIterationView m ∧
    writerIterationView (update_configuration m nr nw rd wd wp)
      = writerIterationView m

/-- A running coordinator with the default configuration of
`SimulationManager.__init__`. -/
def c3Manager : Manager :=
  { num_readers := 5, num_writers := 3, read_delay := 1, write_delay := 2,
    writer_priority := false, lock_writer_priority := false,
    running := true, paused := false, pauseWaiters := [],
    reader_threads := [1, 2, 3, 4, 5], writer_threads := [1, 2, 3],
    message_queue := { maxsize := 0, items := [] } }

/-- C3 is refuted as stated: updating `read_delay` from 1 to 2 while
running changes the delay the already-spawned readers use on their very
next iteration, because `reader_worker` reads `self.read_delay` on every
loop pass (line 219). -/
theorem c3_counterexample : ¬ configUpdateInertClaim := by
  intro h
  exact absurd ((h c3Manager none none (some 2) none none rfl).1) (by decide)

/-- C3 amended: only the reader/writer counts are inert for the running
pool.  Count updates are recorded and leave both workers' iteration
behavior unchanged, taking effect as the pool size of the next `start`
from a stopped state; but a delay update is read by the running workers on
their next iteration, and a priority update reaches the live lock at once
via `set_priority`. -/
theorem c3_count_updates_inert :
    ∀ (m : Manager) (nr nw : Nat),
      readerIterationView (update_configuration m (some nr) (some nw) none none none)
        = readerIterationView m ∧
      writerIterationView (update_configuration m (some nr) (some nw) none none none)
        = writerIterationView m ∧
      (update_configuration m (some nr) (some nw) none none none).num_readers = nr ∧
      (update_configuration m (some nr) (some nw) none none none).num_writers = nw ∧
      ((start { update_configuration m (some nr) (some nw) none none none with
          running := false }).reader_threads).length
        = m.reader_threads.length + nr ∧
      (∀ rd : ℚ, (update_configuration m none none (some rd) none none).read_delay = rd) ∧
      (∀ wp : Bool,
        (update_configuration m none none none none (some wp)).lock_writer_priority = wp) := by
  intro m nr nw
  refine ⟨rfl, rfl, rfl, rfl, ?_, fun rd => rfl, fun wp => rfl⟩
  simp [start, update_configuration]

/-- `SimulationManager.stop` (lines 156-173): clears `running`, forces
`paused := false` waking every suspended worker, joins each spawned worker
with the 1-second grace period (the join outcome is discarded — a worker
missing the deadline is abandoned), and clears both thread registries.
The returned list records the joins performed. -/
def stop (m : Manager) : Manager × List (Nat × ℚ) :=
  let m1 : Manager := { m with running := false }
  let m2 : Manager := { m1 with paused := false, pauseWaiters := [] }
  let joins := (m2.reader_threads ++ m2.writer_threads).map (fun t => (t, (1 : ℚ)))
  ({ m2 with reader_threads := [], writer_threads := [] }, joins)

/-- C6: after `stop()`, `running` and `paused` are false, no worker remains
suspended on the pause condition, both thread registries are empty, and
every previously spawned worker was waited for with the bounded 1-second
grace period. -/
theorem c6_stop_postconditions :
    ∀ m : Manager,
      (stop m).1.running = false ∧
      (stop m).1.paused = false ∧
      (stop m).1.pauseWaiters = [] ∧
      (stop m).1.reader_threads = [] ∧
      (stop m).1.writer_threads = [] ∧
      (stop m).2 = (m.reader_threads ++ m.writer_threads).map
        (fun t => (t, (1 : ℚ))) := by
  intro m
  exact ⟨rfl, rfl, rfl, rfl, rfl, rfl⟩

/-- `SimulationManager.send_thread_message` (lines 367-380): try to `put`
the message with a 0.1 s timeout; on `queue.Full` the message is silently
dropped (`pass`).  The function is total: no error reaches the producer. -/
def send_thread_message (m : Manager) (msg : Nat) : Manager :=
  match putWithTimeout m.message_queue msg with
  | .error _ => m
  | .ok q => { m with message_queue := q }

/-- C8: `send_thread_message` never propagates an error and never blocks
beyond the put timeout: when the channel is full the event is dropped and
the state is unchanged, otherwise the event is appended to the channel. -/
theorem c8_send_message_total :
    ∀ (m : Manager) (msg : Nat),
      send_thread_message m msg =
        if qFull m.message_queue then m
        else { m with message_queue :=
          { m.message_queue with
              items := m.message_queue.items ++ [msg] } } := by
  intro m msg
  cases h : qFull m.message_queue <;>
    simp [send_thread_message, putWithTimeout, h]

end Sim
